import Mathlib

/-!
Verification of the poker hand-ranking engine in `poker_sim.py`.

The development shallowly embeds the core of the program:
  * the `Suit` and `Rank` enumerations and the `Card` value,
  * `value_hand` (the 5-card hand scorer, tier bases at multiples of 10^6,
    positional payload base `K = 14`),
  * `best_five_card_hand` (maximum of `value_hand` over all 5-card
    combinations, in `itertools.combinations` order, first maximum kept,
    as Python `max` does),
  * `winning_hands` (per-player best hands, stable descending sort by
    score, filter on the top score),
  * the interning pool attached to `Card.__new__` (`card_pool`), modelled
    with explicit allocation identifiers standing for Python object
    identity.

Machine integers of the source are Python's unbounded `int`, embedded as
`Nat` (all quantities are nonnegative); the one subtraction in the source
(`max_rank_value - min_rank_value` inside `is_straight`) is carried out in
`Int`, mirroring Python semantics.
-/

namespace PokerSim

/-- The `Suit` enumeration of the source (`SPADES = 0`, then `auto()`). -/
inductive Suit where
  | SPADES
  | CLUBS
  | HEARTS
  | DIAMONDS
deriving DecidableEq, Fintype

/-- The numeric `value` of a `Suit` member, as assigned by the `Enum`. -/
def Suit.val : Suit → Nat
  | .SPADES => 0
  | .CLUBS => 1
  | .HEARTS => 2
  | .DIAMONDS => 3

/-- Enum lookup `Suit(v)`: `some` member when `v` is a defined value,
`none` (a `ValueError` in Python) otherwise. -/
def Suit.fromValue : Nat → Option Suit
  | 0 => some .SPADES
  | 1 => some .CLUBS
  | 2 => some .HEARTS
  | 3 => some .DIAMONDS
  | _ => none

/-- The `Rank` enumeration of the source (`TWO = 2`, then `auto()` up to
`ACE = 14`). -/
inductive Rank where
  | TWO
  | THREE
  | FOUR
  | FIVE
  | SIX
  | SEVEN
  | EIGHT
  | NINE
  | TEN
  | JACK
  | QUEEN
  | KING
  | ACE
deriving DecidableEq, Fintype

/-- The numeric `value` of a `Rank` member. -/
def Rank.val : Rank → Nat
  | .TWO => 2
  | .THREE => 3
  | .FOUR => 4
  | .FIVE => 5
  | .SIX => 6
  | .SEVEN => 7
  | .EIGHT => 8
  | .NINE => 9
  | .TEN => 10
  | .JACK => 11
  | .QUEEN => 12
  | .KING => 13
  | .ACE => 14

/-- Enum lookup `Rank(v)`. -/
def Rank.fromValue : Nat → Option Rank
  | 2 => some .TWO
  | 3 => some .THREE
  | 4 => some .FOUR
  | 5 => some .FIVE
  | 6 => some .SIX
  | 7 => some .SEVEN
  | 8 => some .EIGHT
  | 9 => some .NINE
  | 10 => some .TEN
  | 11 => some .JACK
  | 12 => some .QUEEN
  | 13 => some .KING
  | 14 => some .ACE
  | _ => none

/-- A playing card: an immutable (suit, rank) pair.  `Card.__eq__` compares
suit and rank, so structural equality is the faithful embedding. -/
structure Card where
  suit : Suit
  rank : Rank
deriving DecidableEq

/-! ### The hand scorer `value_hand`

`value_hand` first rebinds `hand = sorted(hand)`.  `Card.__lt__` compares
only ranks, and Python's sort is stable, so the rank values of the sorted
hand are exactly the sorted rank values of the original hand; every use of
the sorted hand reads only rank values.  We therefore factor the scorer
through `sortRanks` (the ascending rank values) and the flush flag
`len(suits_in_hand) == 1`, computed by `suitCount`. -/

/-- Rank values of the hand after `hand = sorted(hand)`, i.e. in ascending
order. -/
def sortRanks (hand : List Card) : List Nat :=
  (hand.map fun c => c.rank.val).insertionSort fun a b => a ≤ b

/-- First occurrences of a list, in order of first appearance: a faithful
model of the elements of `set(...)` (and of the insertion order of keys
into a `Counter` or `dict` fed the list). -/
def firstOccs {α : Type} [DecidableEq α] (l : List α) : List α :=
  l.foldl (fun acc a => if a ∈ acc then acc else acc ++ [a]) []

/-- `len(set(xs))`: the number of distinct elements. -/
def distinctCount {α : Type} [DecidableEq α] (l : List α) : Nat :=
  (firstOccs l).length

/-- `len(set(card.suit for card in hand))`. -/
def suitCount (hand : List Card) : Nat :=
  distinctCount (hand.map Card.suit)

/-- The test `{Rank.TWO, Rank.ACE} < ranks_in_hand`: `{2, 14}` is a proper
subset of the set of ranks, i.e. both 2 and 14 occur and some other rank
occurs as well. -/
def wheelB (s : List Nat) : Bool :=
  s.contains 2 && s.contains 14 && s.any fun r => !(r == 2) && !(r == 14)

/-- The inner function `is_straight()` of `value_hand`, over the ascending
rank values `s` of the (length-5) sorted hand.  `hand[-1]`, `hand[0]` and
`hand[-2]` are positions 4, 0 and 3; `Rank.TWO.value - 1` is `1`.  The
subtraction `max_rank_value - min_rank_value` is over `Int`, as in Python. -/
def isStraightB (s : List Nat) : Bool :=
  if distinctCount s < 5 then
    false
  else
    let mx : Int := if wheelB s then (s.getD 3 0 : Nat) else (s.getD 4 0 : Nat)
    let mn : Int := if wheelB s then 1 else (s.getD 0 0 : Nat)
    (distinctCount s == 5) && (mx - mn == 4)

/-- `Counter(card.rank for card in hand).most_common()` as (rank value,
count) pairs: counts descending, ties in counts in insertion order (the
iteration is over the sorted hand, so insertion order is ascending rank
order).  `insertionSort` is stable, matching CPython's documented tie
order. -/
def rankCounts (s : List Nat) : List (Nat × Nat) :=
  ((firstOccs s).map fun r => (r, s.count r)).insertionSort fun a b => b.2 ≤ a.2

/-- `sum(14**i * hand[i].rank.value for i in range(len(hand)))`, the
high-card / flush payload over the ascending rank values. -/
def highPayload (s : List Nat) : Nat :=
  ((List.range s.length).map fun i => 14 ^ i * s.getD i 0).sum

/-- `sorted(ranks_in_hand - {pair_rank}, reverse=True)`: the non-pair rank
values, descending. -/
def pairKickers (s : List Nat) (pairRank : Nat) : List Nat :=
  ((firstOccs s).filter fun r => !(r == pairRank)).insertionSort fun a b => b ≤ a

/-- Tier base offsets attached to `value_hand` by `@static_vars`. -/
def HIGH : Nat := 0
def PAIR : Nat := 1000000
def TWO_PAIR : Nat := 2000000
def SET : Nat := 3000000
def STRAIGHT : Nat := 4000000
def FLUSH : Nat := 5000000
def FULL : Nat := 6000000
def FOUR : Nat := 7000000
def STRAIGHT_FLUSH : Nat := 8000000
def ROYAL : Nat := 9000000
/-- Positional payload base `K`. -/
def K : Nat := 14

/-- The body of `value_hand`, factored over the ascending rank values `s`
of the sorted hand and the flush flag.  Follows the source line by line:
the pair-type `if/elif` chain on `rank_counts`, then the
flush / straight-flush / royal logic, then the straight check, then the
high-card fallback guarded by `score < PAIR`. -/
def valueHandRanks (s : List Nat) (flushFlag : Bool) : Nat :=
  let rc := rankCounts s
  let r0 := (rc.getD 0 (0, 0)).1
  let c0 := (rc.getD 0 (0, 0)).2
  let r1 := (rc.getD 1 (0, 0)).1
  let c1 := (rc.getD 1 (0, 0)).2
  let r2 := (rc.getD 2 (0, 0)).1
  let score0 : Nat :=
    if c0 == 3 && c1 == 2 then
      FULL + K * r0 + r1
    else if c0 == 2 && c1 == 2 then
      TWO_PAIR + K ^ 2 * max r0 r1 + K * min r0 r1 + r2
    else if c0 == 3 && c1 == 1 then
      SET + K ^ 2 * r0 + K * max r1 r2 + min r1 r2
    else if c0 == 2 && c1 == 1 then
      let ks := pairKickers s r0
      PAIR + K ^ 3 * r0 + K ^ 2 * ks.getD 0 0 + K * ks.getD 1 0 + ks.getD 2 0
    else if c0 == 4 && c1 == 1 then
      FOUR + K * r0 + r1
    else
      0
  if flushFlag then
    if isStraightB s then
      if s.getD 0 0 == 10 then
        ROYAL
      else
        STRAIGHT_FLUSH + (if wheelB s then 5 else s.getD 4 0)
    else
      max FLUSH score0 + highPayload s
  else if isStraightB s then
    STRAIGHT + (if wheelB s then 5 else s.getD 4 0)
  else if score0 < PAIR then
    highPayload s
  else
    score0

/-- `value_hand(hand)` (the `assert len(hand) == 5` precondition appears as
a hypothesis of the theorems). -/
def value_hand (hand : List Card) : Nat :=
  valueHandRanks (sortRanks hand) (suitCount hand == 1)

/-! ### Spec-side definitions

The following definitions follow the specification's words (canonical
poker categories, spec straight characterization, spec payload formula),
to be compared against the behaviour of `valueHandRanks`. -/

/-- Modelled from the spec: the ascending rank values form five distinct
consecutive values (`s = [a, a+1, a+2, a+3, a+4]`). -/
def consecB (s : List Nat) : Bool :=
  s == [s.headD 0, s.headD 0 + 1, s.headD 0 + 2, s.headD 0 + 3, s.headD 0 + 4]

/-- Modelled from the spec: the wheel A-2-3-4-5, as ascending rank values. -/
def wheelSpecB (s : List Nat) : Bool :=
  s == [2, 3, 4, 5, 14]

/-- Modelled from the spec: a straight is five distinct consecutive rank
values, or the wheel. -/
def straightSpecB (s : List Nat) : Bool :=
  consecB s || wheelSpecB s

/-- Whether some rank value occurs exactly `n` times. -/
def hasCount (s : List Nat) (n : Nat) : Bool :=
  s.any fun r => s.count r == n

/-- Whether exactly two distinct rank values occur twice. -/
def twoPairCount (s : List Nat) : Bool :=
  ((firstOccs s).filter fun r => s.count r == 2).length == 2

/-- All five rank values distinct. -/
def nodupB (s : List Nat) : Bool :=
  distinctCount s == s.length

/-- Modelled from the spec: the canonical poker category of a hand with
ascending rank values `s` and flush flag `f`, numbered in canonical order
`0` = high card, `1` = one pair, `2` = two pair, `3` = three of a kind,
`4` = straight, `5` = flush, `6` = full house, `7` = four of a kind,
`8` = straight flush, `9` = royal flush; a hand's category is the highest
matching one. -/
def categoryRanks (s : List Nat) (f : Bool) : Nat :=
  if f && straightSpecB s && (s == [10, 11, 12, 13, 14]) then 9
  else if f && straightSpecB s then 8
  else if hasCount s 4 then 7
  else if hasCount s 3 && hasCount s 2 then 6
  else if f then 5
  else if straightSpecB s then 4
  else if hasCount s 3 then 3
  else if twoPairCount s then 2
  else if hasCount s 2 then 1
  else 0

/-- The canonical poker category of a hand of cards. -/
def category (hand : List Card) : Nat :=
  categoryRanks (sortRanks hand) (suitCount hand == 1)

/-- The straight payload: the high-end rank value, `5` for the wheel. -/
def straightHigh (s : List Nat) : Nat :=
  if wheelSpecB s then 5 else s.getD 4 0

/-- Modelled from the spec: the high-card / flush payload written over the
cards in descending rank order, the most significant (highest) card
carrying the largest positional weight `14^4`. -/
def payloadDesc (s : List Nat) : Nat :=
  ((List.range 5).map fun i => 14 ^ (4 - i) * s.reverse.getD i 0).sum


lemma highPayload_five (a b c d e : Nat) :
    highPayload [a, b, c, d, e] = a + 14 * b + 196 * c + 2744 * d + 38416 * e := by
  have hr : List.range 5 = [0, 1, 2, 3, 4] := rfl
  simp [highPayload, hr]
  ring

/-- Every code/spec correspondence fact about one rank multiset `s`. -/
def masterProp (s : List Nat) : Prop :=
  categoryRanks s false * 1000000 ≤ valueHandRanks s false ∧
  valueHandRanks s false < categoryRanks s false * 1000000 + 1000000 ∧
  categoryRanks s true * 1000000 ≤ valueHandRanks s true ∧
  valueHandRanks s true < categoryRanks s true * 1000000 + 1000000 ∧
  (isStraightB s = true ↔ straightSpecB s = true) ∧
  (isStraightB s = true → valueHandRanks s false = 4000000 + straightHigh s) ∧
  (isStraightB s = true →
    valueHandRanks s true =
      if s = [10, 11, 12, 13, 14] then 9000000 else 8000000 + straightHigh s) ∧
  (s.Nodup → isStraightB s = false →
    valueHandRanks s false = highPayload s ∧
    valueHandRanks s true = 5000000 + highPayload s)

set_option maxHeartbeats 1000000 in
lemma masterProp_distinct (a b c d e : Nat) (h1 : a < b) (h2 : b < c) (h3 : c < d)
    (h4 : d < e) (ha : 2 ≤ a) (he : e ≤ 14) : masterProp [a, b, c, d, e] := by
  by_cases hae : a = 2 ∧ e = 14
  · obtain ⟨rfl, rfl⟩ := hae
    by_cases hd5 : d = 5
    · subst hd5
      obtain rfl : b = 3 := by omega
      obtain rfl : c = 4 := by omega
      simp only [masterProp]
      decide
    · -- wheel present but not a straight
      have f1 : ¬(b = 2) := by omega
      have f2 : ¬(b = 14) := by omega
      have f3 : ¬(c = 2) := by omega
      have f4 : ¬(c = 14) := by omega
      have f5 : ¬(d = 2) := by omega
      have f6 : ¬(d = 14) := by omega
      have f7 : ¬(2 = b) := by omega
      have f8 : ¬(2 = c) := by omega
      have f9 : ¬(2 = d) := by omega
      have f10 : ¬(14 = b) := by omega
      have f11 : ¬(14 = c) := by omega
      have f12 : ¬(14 = d) := by omega
      have f13 : ¬((d : Int) - 1 = 4) := by omega
      have n1 : (2 : Nat) ≠ b := by omega
      have n2 : b ≠ 2 := by omega
      have n3 : (2 : Nat) ≠ c := by omega
      have n4 : c ≠ 2 := by omega
      have n5 : (2 : Nat) ≠ d := by omega
      have n6 : d ≠ 2 := by omega
      have n7 : (2 : Nat) ≠ 14 := by omega
      have n8 : (14 : Nat) ≠ 2 := by omega
      have n9 : b ≠ c := by omega
      have n10 : c ≠ b := by omega
      have n11 : b ≠ d := by omega
      have n12 : d ≠ b := by omega
      have n13 : b ≠ 14 := by omega
      have n14 : (14 : Nat) ≠ b := by omega
      have n15 : c ≠ d := by omega
      have n16 : d ≠ c := by omega
      have n17 : c ≠ 14 := by omega
      have n18 : (14 : Nat) ≠ c := by omega
      have n19 : d ≠ 14 := by omega
      have n20 : (14 : Nat) ≠ d := by omega
      simp [masterProp, valueHandRanks, categoryRanks, rankCounts, firstOccs, pairKickers,
        distinctCount, straightSpecB, consecB, wheelSpecB, hasCount, twoPairCount,
        isStraightB, wheelB, highPayload_five, straightHigh, hd5,
        f1, f2, f3, f4, f5, f6, f7, f8, f9, f10, f11, f12, f13,
        n1, n2, n3, n4, n5, n6, n7, n8, n9, n10, n11, n12, n13, n14, n15, n16, n17,
        n18, n19, n20,
        List.count_cons, List.insertionSort, List.orderedInsert, List.getD,
        List.nodup_cons,
        FULL, PAIR, TWO_PAIR, SET, STRAIGHT, FLUSH, FOUR, STRAIGHT_FLUSH, ROYAL, HIGH, K]
      try omega
      try (split_ifs <;> omega)
  · by_cases he4 : e = a + 4
    · subst he4
      obtain rfl : b = a + 1 := by omega
      obtain rfl : c = a + 2 := by omega
      obtain rfl : d = a + 3 := by omega
      have g1 : ¬(2 = a + 1) := by omega
      have g2 : ¬(2 = a + 2) := by omega
      have g3 : ¬(2 = a + 3) := by omega
      have g4 : ¬(2 = a + 4) := by omega
      have g5 : ¬(14 = a) := by omega
      have g6 : ¬(14 = a + 1) := by omega
      have g7 : ¬(14 = a + 2) := by omega
      have g8 : ¬(14 = a + 3) := by omega
      have g9 : ¬(a + 1 = 2) := by omega
      have g10 : ¬(a + 2 = 2) := by omega
      have g11 : ¬(a + 3 = 2) := by omega
      have g12 : ¬(a + 4 = 2) := by omega
      have g13 : ¬(a = 14) := by omega
      have g14 : ¬(a + 1 = 14) := by omega
      have g15 : ¬(a + 2 = 14) := by omega
      have g16 : ¬(a + 3 = 14) := by omega
      have g17 : ¬(2 = a ∧ 14 = a + 4) := by omega
      have g18 : ((a + 4 : Nat) : Int) - (a : Nat) = 4 := by omega
      have n1 : a ≠ a + 1 := by omega
      have n2 : a + 1 ≠ a := by omega
      have n3 : a ≠ a + 2 := by omega
      have n4 : a + 2 ≠ a := by omega
      have n5 : a ≠ a + 3 := by omega
      have n6 : a + 3 ≠ a := by omega
      have n7 : a ≠ a + 4 := by omega
      have n8 : a + 4 ≠ a := by omega
      have n9 : a + 1 ≠ a + 2 := by omega
      have n10 : a + 2 ≠ a + 1 := by omega
      have n11 : a + 1 ≠ a + 3 := by omega
      have n12 : a + 3 ≠ a + 1 := by omega
      have n13 : a + 1 ≠ a + 4 := by omega
      have n14 : a + 4 ≠ a + 1 := by omega
      have n15 : a + 2 ≠ a + 3 := by omega
      have n16 : a + 3 ≠ a + 2 := by omega
      have n17 : a + 2 ≠ a + 4 := by omega
      have n18 : a + 4 ≠ a + 2 := by omega
      have n19 : a + 3 ≠ a + 4 := by omega
      have n20 : a + 4 ≠ a + 3 := by omega
      simp [masterProp, valueHandRanks, categoryRanks, rankCounts, firstOccs, pairKickers,
        distinctCount, straightSpecB, consecB, wheelSpecB, hasCount, twoPairCount,
        isStraightB, wheelB, highPayload_five, straightHigh,
        g1, g2, g3, g4, g5, g6, g7, g8, g9, g10, g11, g12, g13, g14, g15, g16, g17, g18,
        n1, n2, n3, n4, n5, n6, n7, n8, n9, n10, n11, n12, n13, n14, n15, n16, n17,
        n18, n19, n20,
        List.count_cons, List.insertionSort, List.orderedInsert, List.getD,
        List.nodup_cons,
        FULL, PAIR, TWO_PAIR, SET, STRAIGHT, FLUSH, FOUR, STRAIGHT_FLUSH, ROYAL, HIGH, K]
      try omega
      try (split_ifs <;> omega)
    · -- neither wheel-straight nor consecutive straight
      have f1 : ¬(2 = b) := by omega
      have f2 : ¬(2 = c) := by omega
      have f3 : ¬(2 = d) := by omega
      have f4 : ¬(2 = e) := by omega
      have f5 : ¬(14 = a) := by omega
      have f6 : ¬(14 = b) := by omega
      have f7 : ¬(14 = c) := by omega
      have f8 : ¬(14 = d) := by omega
      have f9 : ¬(c = 2) := by omega
      have f10 : ¬(c = 14) := by omega
      have f11 : ¬(2 = a ∧ 14 = e) := by omega
      have f12 : ¬((e : Int) - (a : Nat) = 4) := by omega
      have f13 : ¬(e = a + 4) := he4
      have n1 : a ≠ b := by omega
      have n2 : b ≠ a := by omega
      have n3 : a ≠ c := by omega
      have n4 : c ≠ a := by omega
      have n5 : a ≠ d := by omega
      have n6 : d ≠ a := by omega
      have n7 : a ≠ e := by omega
      have n8 : e ≠ a := by omega
      have n9 : b ≠ c := by omega
      have n10 : c ≠ b := by omega
      have n11 : b ≠ d := by omega
      have n12 : d ≠ b := by omega
      have n13 : b ≠ e := by omega
      have n14 : e ≠ b := by omega
      have n15 : c ≠ d := by omega
      have n16 : d ≠ c := by omega
      have n17 : c ≠ e := by omega
      have n18 : e ≠ c := by omega
      have n19 : d ≠ e := by omega
      have n20 : e ≠ d := by omega
      simp [masterProp, valueHandRanks, categoryRanks, rankCounts, firstOccs, pairKickers,
        distinctCount, straightSpecB, consecB, wheelSpecB, hasCount, twoPairCount,
        isStraightB, wheelB, highPayload_five, straightHigh,
        f1, f2, f3, f4, f5, f6, f7, f8, f9, f10, f11, f12, f13,
        n1, n2, n3, n4, n5, n6, n7, n8, n9, n10, n11, n12, n13, n14, n15, n16, n17,
        n18, n19, n20,
        List.count_cons, List.insertionSort, List.orderedInsert, List.getD,
        List.nodup_cons,
        FULL, PAIR, TWO_PAIR, SET, STRAIGHT, FLUSH, FOUR, STRAIGHT_FLUSH, ROYAL, HIGH, K]
      try omega
      try (split_ifs <;> omega)


set_option maxHeartbeats 1000000 in
lemma masterProp_p5 (x : Nat) (hlo : 2 ≤ x) (hhi : x ≤ 14) :
    masterProp [x, x, x, x, x] := by
  simp [masterProp, valueHandRanks, categoryRanks, rankCounts, firstOccs,
    pairKickers, distinctCount, straightSpecB, consecB, wheelSpecB, hasCount,
    twoPairCount, isStraightB, wheelB, highPayload_five, straightHigh,
    List.count_cons, List.insertionSort, List.orderedInsert, List.getD,
    List.nodup_cons,
    FULL, PAIR, TWO_PAIR, SET, STRAIGHT, FLUSH, FOUR, STRAIGHT_FLUSH, ROYAL,
    HIGH, K]
  try omega
  try (split_ifs <;> omega)

set_option maxHeartbeats 1000000 in
lemma masterProp_p41 (x z : Nat) (h1 : x < z) (hlo : 2 ≤ x) (hhi : z ≤ 14) :
    masterProp [x, x, x, x, z] := by
  have q1 : x ≠ z := by omega
  have q2 : z ≠ x := by omega
  have q3 : x ≤ z := by omega
  have q4 : ¬(z ≤ x) := by omega
  simp [masterProp, valueHandRanks, categoryRanks, rankCounts, firstOccs,
    pairKickers, distinctCount, straightSpecB, consecB, wheelSpecB, hasCount,
    twoPairCount, isStraightB, wheelB, highPayload_five, straightHigh, q1, q2, q3, q4,
    List.count_cons, List.insertionSort, List.orderedInsert, List.getD,
    List.nodup_cons,
    FULL, PAIR, TWO_PAIR, SET, STRAIGHT, FLUSH, FOUR, STRAIGHT_FLUSH, ROYAL,
    HIGH, K]
  try omega
  try (split_ifs <;> omega)

set_option maxHeartbeats 1000000 in
lemma masterProp_p32 (x z : Nat) (h1 : x < z) (hlo : 2 ≤ x) (hhi : z ≤ 14) :
    masterProp [x, x, x, z, z] := by
  have q1 : x ≠ z := by omega
  have q2 : z ≠ x := by omega
  have q3 : x ≤ z := by omega
  have q4 : ¬(z ≤ x) := by omega
  simp [masterProp, valueHandRanks, categoryRanks, rankCounts, firstOccs,
    pairKickers, distinctCount, straightSpecB, consecB, wheelSpecB, hasCount,
    twoPairCount, isStraightB, wheelB, highPayload_five, straightHigh, q1, q2, q3, q4,
    List.count_cons, List.insertionSort, List.orderedInsert, List.getD,
    List.nodup_cons,
    FULL, PAIR, TWO_PAIR, SET, STRAIGHT, FLUSH, FOUR, STRAIGHT_FLUSH, ROYAL,
    HIGH, K]
  try omega
  try (split_ifs <;> omega)

set_option maxHeartbeats 1000000 in
lemma masterProp_p311 (x y z : Nat) (h1 : x < y) (h2 : y < z) (hlo : 2 ≤ x) (hhi : z ≤ 14) :
    masterProp [x, x, x, y, z] := by
  have q1 : x ≠ y := by omega
  have q2 : y ≠ x := by omega
  have q3 : x ≤ y := by omega
  have q4 : ¬(y ≤ x) := by omega
  have q5 : x ≠ z := by omega
  have q6 : z ≠ x := by omega
  have q7 : x ≤ z := by omega
  have q8 : ¬(z ≤ x) := by omega
  have q9 : y ≠ z := by omega
  have q10 : z ≠ y := by omega
  have q11 : y ≤ z := by omega
  have q12 : ¬(z ≤ y) := by omega
  simp [masterProp, valueHandRanks, categoryRanks, rankCounts, firstOccs,
    pairKickers, distinctCount, straightSpecB, consecB, wheelSpecB, hasCount,
    twoPairCount, isStraightB, wheelB, highPayload_five, straightHigh, q1, q2, q3, q4, q5, q6, q7, q8, q9, q10, q11, q12,
    List.count_cons, List.insertionSort, List.orderedInsert, List.getD,
    List.nodup_cons,
    FULL, PAIR, TWO_PAIR, SET, STRAIGHT, FLUSH, FOUR, STRAIGHT_FLUSH, ROYAL,
    HIGH, K]
  try omega
  try (split_ifs <;> omega)

set_option maxHeartbeats 1000000 in
lemma masterProp_p23 (x y : Nat) (h1 : x < y) (hlo : 2 ≤ x) (hhi : y ≤ 14) :
    masterProp [x, x, y, y, y] := by
  have q1 : x ≠ y := by omega
  have q2 : y ≠ x := by omega
  have q3 : x ≤ y := by omega
  have q4 : ¬(y ≤ x) := by omega
  simp [masterProp, valueHandRanks, categoryRanks, rankCounts, firstOccs,
    pairKickers, distinctCount, straightSpecB, consecB, wheelSpecB, hasCount,
    twoPairCount, isStraightB, wheelB, highPayload_five, straightHigh, q1, q2, q3, q4,
    List.count_cons, List.insertionSort, List.orderedInsert, List.getD,
    List.nodup_cons,
    FULL, PAIR, TWO_PAIR, SET, STRAIGHT, FLUSH, FOUR, STRAIGHT_FLUSH, ROYAL,
    HIGH, K]
  try omega
  try (split_ifs <;> omega)

set_option maxHeartbeats 1000000 in
lemma masterProp_p221 (x y z : Nat) (h1 : x < y) (h2 : y < z) (hlo : 2 ≤ x) (hhi : z ≤ 14) :
    masterProp [x, x, y, y, z] := by
  have q1 : x ≠ y := by omega
  have q2 : y ≠ x := by omega
  have q3 : x ≤ y := by omega
  have q4 : ¬(y ≤ x) := by omega
  have q5 : x ≠ z := by omega
  have q6 : z ≠ x := by omega
  have q7 : x ≤ z := by omega
  have q8 : ¬(z ≤ x) := by omega
  have q9 : y ≠ z := by omega
  have q10 : z ≠ y := by omega
  have q11 : y ≤ z := by omega
  have q12 : ¬(z ≤ y) := by omega
  simp [masterProp, valueHandRanks, categoryRanks, rankCounts, firstOccs,
    pairKickers, distinctCount, straightSpecB, consecB, wheelSpecB, hasCount,
    twoPairCount, isStraightB, wheelB, highPayload_five, straightHigh, q1, q2, q3, q4, q5, q6, q7, q8, q9, q10, q11, q12,
    List.count_cons, List.insertionSort, List.orderedInsert, List.getD,
    List.nodup_cons,
    FULL, PAIR, TWO_PAIR, SET, STRAIGHT, FLUSH, FOUR, STRAIGHT_FLUSH, ROYAL,
    HIGH, K]
  try omega
  try (split_ifs <;> omega)

set_option maxHeartbeats 1000000 in
lemma masterProp_p212 (x y z : Nat) (h1 : x < y) (h2 : y < z) (hlo : 2 ≤ x) (hhi : z ≤ 14) :
    masterProp [x, x, y, z, z] := by
  have q1 : x ≠ y := by omega
  have q2 : y ≠ x := by omega
  have q3 : x ≤ y := by omega
  have q4 : ¬(y ≤ x) := by omega
  have q5 : x ≠ z := by omega
  have q6 : z ≠ x := by omega
  have q7 : x ≤ z := by omega
  have q8 : ¬(z ≤ x) := by omega
  have q9 : y ≠ z := by omega
  have q10 : z ≠ y := by omega
  have q11 : y ≤ z := by omega
  have q12 : ¬(z ≤ y) := by omega
  simp [masterProp, valueHandRanks, categoryRanks, rankCounts, firstOccs,
    pairKickers, distinctCount, straightSpecB, consecB, wheelSpecB, hasCount,
    twoPairCount, isStraightB, wheelB, highPayload_five, straightHigh, q1, q2, q3, q4, q5, q6, q7, q8, q9, q10, q11, q12,
    List.count_cons, List.insertionSort, List.orderedInsert, List.getD,
    List.nodup_cons,
    FULL, PAIR, TWO_PAIR, SET, STRAIGHT, FLUSH, FOUR, STRAIGHT_FLUSH, ROYAL,
    HIGH, K]
  try omega
  try (split_ifs <;> omega)

set_option maxHeartbeats 1000000 in
lemma masterProp_p2111 (x y z w : Nat) (h1 : x < y) (h2 : y < z) (h3 : z < w) (hlo : 2 ≤ x) (hhi : w ≤ 14) :
    masterProp [x, x, y, z, w] := by
  have q1 : x ≠ y := by omega
  have q2 : y ≠ x := by omega
  have q3 : x ≤ y := by omega
  have q4 : ¬(y ≤ x) := by omega
  have q5 : x ≠ z := by omega
  have q6 : z ≠ x := by omega
  have q7 : x ≤ z := by omega
  have q8 : ¬(z ≤ x) := by omega
  have q9 : x ≠ w := by omega
  have q10 : w ≠ x := by omega
  have q11 : x ≤ w := by omega
  have q12 : ¬(w ≤ x) := by omega
  have q13 : y ≠ z := by omega
  have q14 : z ≠ y := by omega
  have q15 : y ≤ z := by omega
  have q16 : ¬(z ≤ y) := by omega
  have q17 : y ≠ w := by omega
  have q18 : w ≠ y := by omega
  have q19 : y ≤ w := by omega
  have q20 : ¬(w ≤ y) := by omega
  have q21 : z ≠ w := by omega
  have q22 : w ≠ z := by omega
  have q23 : z ≤ w := by omega
  have q24 : ¬(w ≤ z) := by omega
  simp [masterProp, valueHandRanks, categoryRanks, rankCounts, firstOccs,
    pairKickers, distinctCount, straightSpecB, consecB, wheelSpecB, hasCount,
    twoPairCount, isStraightB, wheelB, highPayload_five, straightHigh, q1, q2, q3, q4, q5, q6, q7, q8, q9, q10, q11, q12, q13, q14, q15, q16, q17, q18, q19, q20, q21, q22, q23, q24,
    List.count_cons, List.insertionSort, List.orderedInsert, List.getD,
    List.nodup_cons,
    FULL, PAIR, TWO_PAIR, SET, STRAIGHT, FLUSH, FOUR, STRAIGHT_FLUSH, ROYAL,
    HIGH, K]
  try omega
  try (split_ifs <;> omega)

set_option maxHeartbeats 1000000 in
lemma masterProp_p14 (x y : Nat) (h1 : x < y) (hlo : 2 ≤ x) (hhi : y ≤ 14) :
    masterProp [x, y, y, y, y] := by
  have q1 : x ≠ y := by omega
  have q2 : y ≠ x := by omega
  have q3 : x ≤ y := by omega
  have q4 : ¬(y ≤ x) := by omega
  simp [masterProp, valueHandRanks, categoryRanks, rankCounts, firstOccs,
    pairKickers, distinctCount, straightSpecB, consecB, wheelSpecB, hasCount,
    twoPairCount, isStraightB, wheelB, highPayload_five, straightHigh, q1, q2, q3, q4,
    List.count_cons, List.insertionSort, List.orderedInsert, List.getD,
    List.nodup_cons,
    FULL, PAIR, TWO_PAIR, SET, STRAIGHT, FLUSH, FOUR, STRAIGHT_FLUSH, ROYAL,
    HIGH, K]
  try omega
  try (split_ifs <;> omega)

set_option maxHeartbeats 1000000 in
lemma masterProp_p131 (x y z : Nat) (h1 : x < y) (h2 : y < z) (hlo : 2 ≤ x) (hhi : z ≤ 14) :
    masterProp [x, y, y, y, z] := by
  have q1 : x ≠ y := by omega
  have q2 : y ≠ x := by omega
  have q3 : x ≤ y := by omega
  have q4 : ¬(y ≤ x) := by omega
  have q5 : x ≠ z := by omega
  have q6 : z ≠ x := by omega
  have q7 : x ≤ z := by omega
  have q8 : ¬(z ≤ x) := by omega
  have q9 : y ≠ z := by omega
  have q10 : z ≠ y := by omega
  have q11 : y ≤ z := by omega
  have q12 : ¬(z ≤ y) := by omega
  simp [masterProp, valueHandRanks, categoryRanks, rankCounts, firstOccs,
    pairKickers, distinctCount, straightSpecB, consecB, wheelSpecB, hasCount,
    twoPairCount, isStraightB, wheelB, highPayload_five, straightHigh, q1, q2, q3, q4, q5, q6, q7, q8, q9, q10, q11, q12,
    List.count_cons, List.insertionSort, List.orderedInsert, List.getD,
    List.nodup_cons,
    FULL, PAIR, TWO_PAIR, SET, STRAIGHT, FLUSH, FOUR, STRAIGHT_FLUSH, ROYAL,
    HIGH, K]
  try omega
  try (split_ifs <;> omega)

set_option maxHeartbeats 1000000 in
lemma masterProp_p122 (x y z : Nat) (h1 : x < y) (h2 : y < z) (hlo : 2 ≤ x) (hhi : z ≤ 14) :
    masterProp [x, y, y, z, z] := by
  have q1 : x ≠ y := by omega
  have q2 : y ≠ x := by omega
  have q3 : x ≤ y := by omega
  have q4 : ¬(y ≤ x) := by omega
  have q5 : x ≠ z := by omega
  have q6 : z ≠ x := by omega
  have q7 : x ≤ z := by omega
  have q8 : ¬(z ≤ x) := by omega
  have q9 : y ≠ z := by omega
  have q10 : z ≠ y := by omega
  have q11 : y ≤ z := by omega
  have q12 : ¬(z ≤ y) := by omega
  simp [masterProp, valueHandRanks, categoryRanks, rankCounts, firstOccs,
    pairKickers, distinctCount, straightSpecB, consecB, wheelSpecB, hasCount,
    twoPairCount, isStraightB, wheelB, highPayload_five, straightHigh, q1, q2, q3, q4, q5, q6, q7, q8, q9, q10, q11, q12,
    List.count_cons, List.insertionSort, List.orderedInsert, List.getD,
    List.nodup_cons,
    FULL, PAIR, TWO_PAIR, SET, STRAIGHT, FLUSH, FOUR, STRAIGHT_FLUSH, ROYAL,
    HIGH, K]
  try omega
  try (split_ifs <;> omega)

set_option maxHeartbeats 1000000 in
lemma masterProp_p1211 (x y z w : Nat) (h1 : x < y) (h2 : y < z) (h3 : z < w) (hlo : 2 ≤ x) (hhi : w ≤ 14) :
    masterProp [x, y, y, z, w] := by
  have q1 : x ≠ y := by omega
  have q2 : y ≠ x := by omega
  have q3 : x ≤ y := by omega
  have q4 : ¬(y ≤ x) := by omega
  have q5 : x ≠ z := by omega
  have q6 : z ≠ x := by omega
  have q7 : x ≤ z := by omega
  have q8 : ¬(z ≤ x) := by omega
  have q9 : x ≠ w := by omega
  have q10 : w ≠ x := by omega
  have q11 : x ≤ w := by omega
  have q12 : ¬(w ≤ x) := by omega
  have q13 : y ≠ z := by omega
  have q14 : z ≠ y := by omega
  have q15 : y ≤ z := by omega
  have q16 : ¬(z ≤ y) := by omega
  have q17 : y ≠ w := by omega
  have q18 : w ≠ y := by omega
  have q19 : y ≤ w := by omega
  have q20 : ¬(w ≤ y) := by omega
  have q21 : z ≠ w := by omega
  have q22 : w ≠ z := by omega
  have q23 : z ≤ w := by omega
  have q24 : ¬(w ≤ z) := by omega
  simp [masterProp, valueHandRanks, categoryRanks, rankCounts, firstOccs,
    pairKickers, distinctCount, straightSpecB, consecB, wheelSpecB, hasCount,
    twoPairCount, isStraightB, wheelB, highPayload_five, straightHigh, q1, q2, q3, q4, q5, q6, q7, q8, q9, q10, q11, q12, q13, q14, q15, q16, q17, q18, q19, q20, q21, q22, q23, q24,
    List.count_cons, List.insertionSort, List.orderedInsert, List.getD,
    List.nodup_cons,
    FULL, PAIR, TWO_PAIR, SET, STRAIGHT, FLUSH, FOUR, STRAIGHT_FLUSH, ROYAL,
    HIGH, K]
  try omega
  try (split_ifs <;> omega)

set_option maxHeartbeats 1000000 in
lemma masterProp_p113 (x y z : Nat) (h1 : x < y) (h2 : y < z) (hlo : 2 ≤ x) (hhi : z ≤ 14) :
    masterProp [x, y, z, z, z] := by
  have q1 : x ≠ y := by omega
  have q2 : y ≠ x := by omega
  have q3 : x ≤ y := by omega
  have q4 : ¬(y ≤ x) := by omega
  have q5 : x ≠ z := by omega
  have q6 : z ≠ x := by omega
  have q7 : x ≤ z := by omega
  have q8 : ¬(z ≤ x) := by omega
  have q9 : y ≠ z := by omega
  have q10 : z ≠ y := by omega
  have q11 : y ≤ z := by omega
  have q12 : ¬(z ≤ y) := by omega
  simp [masterProp, valueHandRanks, categoryRanks, rankCounts, firstOccs,
    pairKickers, distinctCount, straightSpecB, consecB, wheelSpecB, hasCount,
    twoPairCount, isStraightB, wheelB, highPayload_five, straightHigh, q1, q2, q3, q4, q5, q6, q7, q8, q9, q10, q11, q12,
    List.count_cons, List.insertionSort, List.orderedInsert, List.getD,
    List.nodup_cons,
    FULL, PAIR, TWO_PAIR, SET, STRAIGHT, FLUSH, FOUR, STRAIGHT_FLUSH, ROYAL,
    HIGH, K]
  try omega
  try (split_ifs <;> omega)

set_option maxHeartbeats 1000000 in
lemma masterProp_p1121 (x y z w : Nat) (h1 : x < y) (h2 : y < z) (h3 : z < w) (hlo : 2 ≤ x) (hhi : w ≤ 14) :
    masterProp [x, y, z, z, w] := by
  have q1 : x ≠ y := by omega
  have q2 : y ≠ x := by omega
  have q3 : x ≤ y := by omega
  have q4 : ¬(y ≤ x) := by omega
  have q5 : x ≠ z := by omega
  have q6 : z ≠ x := by omega
  have q7 : x ≤ z := by omega
  have q8 : ¬(z ≤ x) := by omega
  have q9 : x ≠ w := by omega
  have q10 : w ≠ x := by omega
  have q11 : x ≤ w := by omega
  have q12 : ¬(w ≤ x) := by omega
  have q13 : y ≠ z := by omega
  have q14 : z ≠ y := by omega
  have q15 : y ≤ z := by omega
  have q16 : ¬(z ≤ y) := by omega
  have q17 : y ≠ w := by omega
  have q18 : w ≠ y := by omega
  have q19 : y ≤ w := by omega
  have q20 : ¬(w ≤ y) := by omega
  have q21 : z ≠ w := by omega
  have q22 : w ≠ z := by omega
  have q23 : z ≤ w := by omega
  have q24 : ¬(w ≤ z) := by omega
  simp [masterProp, valueHandRanks, categoryRanks, rankCounts, firstOccs,
    pairKickers, distinctCount, straightSpecB, consecB, wheelSpecB, hasCount,
    twoPairCount, isStraightB, wheelB, highPayload_five, straightHigh, q1, q2, q3, q4, q5, q6, q7, q8, q9, q10, q11, q12, q13, q14, q15, q16, q17, q18, q19, q20, q21, q22, q23, q24,
    List.count_cons, List.insertionSort, List.orderedInsert, List.getD,
    List.nodup_cons,
    FULL, PAIR, TWO_PAIR, SET, STRAIGHT, FLUSH, FOUR, STRAIGHT_FLUSH, ROYAL,
    HIGH, K]
  try omega
  try (split_ifs <;> omega)

set_option maxHeartbeats 1000000 in
lemma masterProp_p1112 (x y z w : Nat) (h1 : x < y) (h2 : y < z) (h3 : z < w) (hlo : 2 ≤ x) (hhi : w ≤ 14) :
    masterProp [x, y, z, w, w] := by
  have q1 : x ≠ y := by omega
  have q2 : y ≠ x := by omega
  have q3 : x ≤ y := by omega
  have q4 : ¬(y ≤ x) := by omega
  have q5 : x ≠ z := by omega
  have q6 : z ≠ x := by omega
  have q7 : x ≤ z := by omega
  have q8 : ¬(z ≤ x) := by omega
  have q9 : x ≠ w := by omega
  have q10 : w ≠ x := by omega
  have q11 : x ≤ w := by omega
  have q12 : ¬(w ≤ x) := by omega
  have q13 : y ≠ z := by omega
  have q14 : z ≠ y := by omega
  have q15 : y ≤ z := by omega
  have q16 : ¬(z ≤ y) := by omega
  have q17 : y ≠ w := by omega
  have q18 : w ≠ y := by omega
  have q19 : y ≤ w := by omega
  have q20 : ¬(w ≤ y) := by omega
  have q21 : z ≠ w := by omega
  have q22 : w ≠ z := by omega
  have q23 : z ≤ w := by omega
  have q24 : ¬(w ≤ z) := by omega
  simp [masterProp, valueHandRanks, categoryRanks, rankCounts, firstOccs,
    pairKickers, distinctCount, straightSpecB, consecB, wheelSpecB, hasCount,
    twoPairCount, isStraightB, wheelB, highPayload_five, straightHigh, q1, q2, q3, q4, q5, q6, q7, q8, q9, q10, q11, q12, q13, q14, q15, q16, q17, q18, q19, q20, q21, q22, q23, q24,
    List.count_cons, List.insertionSort, List.orderedInsert, List.getD,
    List.nodup_cons,
    FULL, PAIR, TWO_PAIR, SET, STRAIGHT, FLUSH, FOUR, STRAIGHT_FLUSH, ROYAL,
    HIGH, K]
  try omega
  try (split_ifs <;> omega)


/-- `masterProp` holds for every ascending five-element list of rank
values: case analysis on the adjacent equality pattern, dispatching to the
per-pattern lemmas. -/
theorem masterAll (a b c d e : Nat) (h1 : a ≤ b) (h2 : b ≤ c) (h3 : c ≤ d)
    (h4 : d ≤ e) (ha : 2 ≤ a) (he : e ≤ 14) : masterProp [a, b, c, d, e] := by
  rcases h1.eq_or_lt with rfl | h1
  · rcases h2.eq_or_lt with rfl | h2
    · rcases h3.eq_or_lt with rfl | h3
      · rcases h4.eq_or_lt with rfl | h4
        · exact masterProp_p5 a ha he
        · exact masterProp_p41 a e h4 ha he
      · rcases h4.eq_or_lt with rfl | h4
        · exact masterProp_p32 a d h3 ha he
        · exact masterProp_p311 a d e h3 h4 ha he
    · rcases h3.eq_or_lt with rfl | h3
      · rcases h4.eq_or_lt with rfl | h4
        · exact masterProp_p23 a c h2 ha he
        · exact masterProp_p221 a c e h2 (h4.trans_le (le_refl e)) ha he
      · rcases h4.eq_or_lt with rfl | h4
        · exact masterProp_p212 a c d h2 h3 ha he
        · exact masterProp_p2111 a c d e h2 h3 h4 ha he
  · rcases h2.eq_or_lt with rfl | h2
    · rcases h3.eq_or_lt with rfl | h3
      · rcases h4.eq_or_lt with rfl | h4
        · exact masterProp_p14 a b h1 ha he
        · exact masterProp_p131 a b e h1 h4 ha he
      · rcases h4.eq_or_lt with rfl | h4
        · exact masterProp_p122 a b d h1 h3 ha he
        · exact masterProp_p1211 a b d e h1 h3 h4 ha he
    · rcases h3.eq_or_lt with rfl | h3
      · rcases h4.eq_or_lt with rfl | h4
        · exact masterProp_p113 a b c h1 h2 ha he
        · exact masterProp_p1121 a b c e h1 h2 h4 ha he
      · rcases h4.eq_or_lt with rfl | h4
        · exact masterProp_p1112 a b c d h1 h2 h3 ha he
        · exact masterProp_distinct a b c d e h1 h2 h3 h4 ha he

/-- Every `Rank` value lies in `2..14`. -/
lemma rank_val_bounds : ∀ r : Rank, 2 ≤ r.val ∧ r.val ≤ 14 := by decide

lemma sortRanks_length (hand : List Card) :
    (sortRanks hand).length = hand.length := by
  simp [sortRanks]

lemma sortRanks_sorted (hand : List Card) :
    (sortRanks hand).Sorted (· ≤ ·) :=
  List.sorted_insertionSort _ _

lemma sortRanks_perm (hand : List Card) :
    (sortRanks hand).Perm (hand.map fun c => c.rank.val) :=
  List.perm_insertionSort _ _

lemma sortRanks_bounds (hand : List Card) :
    ∀ x ∈ sortRanks hand, 2 ≤ x ∧ x ≤ 14 := by
  intro x hx
  have hx2 : x ∈ hand.map fun c => c.rank.val := (sortRanks_perm hand).mem_iff.mp hx
  obtain ⟨c, _, rfl⟩ := List.mem_map.mp hx2
  exact rank_val_bounds c.rank

/-- `masterProp` holds for the sorted rank values of every 5-card hand. -/
theorem masterProp_of_hand (hand : List Card) (h5 : hand.length = 5) :
    masterProp (sortRanks hand) := by
  have hlen : (sortRanks hand).length = 5 := by rw [sortRanks_length, h5]
  have hsort := sortRanks_sorted hand
  have hb := sortRanks_bounds hand
  rcases hs : sortRanks hand with _ | ⟨a, _ | ⟨b, _ | ⟨c, _ | ⟨d, _ | ⟨e, _ | ⟨f, t⟩⟩⟩⟩⟩⟩ <;>
    rw [hs] at hlen <;> simp at hlen
  rw [hs] at hsort hb
  simp only [List.sorted_cons] at hsort
  exact masterAll a b c d e (hsort.1 b (by simp)) (hsort.2.1 c (by simp))
    (hsort.2.2.1 d (by simp)) (hsort.2.2.2.1 e (by simp))
    (hb a (by simp)).1 (hb e (by simp)).2

/-- The in-band fact for a 5-card hand: the score lies in the canonical
category's tier band of width `10^6`. -/
theorem band_of_hand (hand : List Card) (h5 : hand.length = 5) :
    category hand * 1000000 ≤ value_hand hand ∧
    value_hand hand < category hand * 1000000 + 1000000 := by
  have m := masterProp_of_hand hand h5
  unfold value_hand category
  cases hf : (suitCount hand == 1)
  · exact ⟨m.1, m.2.1⟩
  · exact ⟨m.2.2.1, m.2.2.2.1⟩


/-! ### `best_five_card_hand` and `winning_hands` -/

/-- `itertools.combinations(l, n)`: all `n`-element subsequences of `l`,
in the library's documented order (combinations containing the first
element come first). -/
def combinations {α : Type} : Nat → List α → List (List α)
  | 0, _ => [[]]
  | _ + 1, [] => []
  | n + 1, x :: xs => ((combinations n xs).map fun c => x :: c) ++ combinations (n + 1) xs

/-- The dictionary returned by `best_five_card_hand`:
`{'five_card_hand': ..., 'value': ...}`. -/
structure ScoredHand where
  five_card_hand : List Card
  value : Nat
deriving DecidableEq

/-- The fold implementing Python's `max(iterable, key=...)`: the first
maximal element is kept (later elements replace the accumulator only when
strictly greater). -/
def foldBest (x : ScoredHand) (xs : List ScoredHand) : ScoredHand :=
  xs.foldl (fun acc y => if acc.value < y.value then y else acc) x

/-- `best_five_card_hand(card_list)`: score every 5-card combination and
return the first one attaining the maximum value.  The empty-combination
case cannot arise for inputs of length ≥ 5 (Python's `max` would raise
there). -/
def best_five_card_hand (card_list : List Card) : ScoredHand :=
  match (combinations 5 card_list).map fun c => ScoredHand.mk c (value_hand c) with
  | [] => ScoredHand.mk [] 0
  | x :: xs => foldBest x xs

/-- One entry of the list built by `winning_hands`:
`{'hole_cards': ..., 'five_card_hand': ..., 'value': ...}`. -/
structure PlayerBest where
  hole_cards : List Card
  five_card_hand : List Card
  value : Nat
deriving DecidableEq

/-- The per-player entry: hole cards merged with the best hand over
hole + community. -/
def playerBest (ph community : List Card) : PlayerBest :=
  PlayerBest.mk ph (best_five_card_hand (ph ++ community)).five_card_hand
    (best_five_card_hand (ph ++ community)).value

/-- `winning_hands(hole_cards, community)`: build every player's best
hand, sort descending by value (`list.sort` is stable; `insertionSort`
with this relation is the faithful embedding), and keep the entries tied
with the top one. -/
def winning_hands (hole_cards : List (List Card)) (community : List Card) :
    List PlayerBest :=
  let best_hands := hole_cards.map fun ph => playerBest ph community
  let sorted := best_hands.insertionSort fun a b => b.value ≤ a.value
  sorted.filter fun hand => hand.value == (sorted.getD 0 (PlayerBest.mk [] [] 0)).value

/-- The maximum best score across all players (the specification's
"maximum across all players in the call"). -/
def maxScore (hole_cards : List (List Card)) (community : List Card) : Nat :=
  ((hole_cards.map fun ph => playerBest ph community).map fun b => b.value).foldl
    Nat.max 0

/-! ### The interning pool of `Card.__new__`

`Card.__new__` carries a `card_pool` dictionary (attached by
`@static_vars`) mapping `(suit, rank)` pairs to the one card object built
for that pair.  Python object identity is modelled by a serial allocation
identifier; suits and ranks are modelled by their raw numeric values so
that out-of-range arguments can be expressed.  The pool is an
insertion-ordered association list, as a Python dict is. -/

structure PoolState where
  pool : List ((Nat × Nat) × Nat)
  nextId : Nat
deriving DecidableEq

/-- Dictionary lookup `card_pool[(suit, rank)]`. -/
def poolFind (pool : List ((Nat × Nat) × Nat)) (k : Nat × Nat) : Option Nat :=
  match pool with
  | [] => none
  | e :: rest => if e.1 = k then some e.2 else poolFind rest k

/-- `Card.__new__(cls, suit, rank)`: return the pooled object when the
`(suit, rank)` key is present, otherwise allocate a fresh object, store it
in the pool and return it.  No validation of `suit` or `rank` is
performed. -/
def card_new (st : PoolState) (suit rank : Nat) : Nat × PoolState :=
  match poolFind st.pool (suit, rank) with
  | some oid => (oid, st)
  | none =>
      (st.nextId, PoolState.mk (st.pool ++ [((suit, rank), st.nextId)]) (st.nextId + 1))

/-- Run a sequence of `Card(suit, rank)` constructions, returning the
object identifiers in order. -/
def card_new_run : List (Nat × Nat) → PoolState → List Nat
  | [], _ => []
  | (s, r) :: rest, st =>
      (card_new st s r).1 :: card_new_run rest (card_new st s r).2

/-- The pool attached to `Card.__new__` starts out empty. -/
def initPool : PoolState := PoolState.mk [] 0


/-! ### Properties of `combinations` and `foldBest` -/

lemma mem_combinations {α : Type} :
    ∀ (n : Nat) (l s : List α), s ∈ combinations n l ↔ s.Sublist l ∧ s.length = n := by
  intro n l
  induction l generalizing n with
  | nil =>
      intro s
      cases n with
      | zero =>
          simp only [combinations, List.mem_singleton]
          constructor
          · rintro rfl; exact ⟨List.Sublist.refl _, rfl⟩
          · rintro ⟨hs, hl⟩
            exact List.eq_nil_of_length_eq_zero hl
      | succ n =>
          simp only [combinations, List.not_mem_nil, false_iff, not_and]
          intro hs hl
          rw [List.sublist_nil.mp hs] at hl
          simp at hl
  | cons x xs ih =>
      intro s
      cases n with
      | zero =>
          simp only [combinations, List.mem_singleton]
          constructor
          · rintro rfl; exact ⟨List.nil_sublist _, rfl⟩
          · rintro ⟨hs, hl⟩
            exact List.eq_nil_of_length_eq_zero hl
      | succ n =>
          simp only [combinations, List.mem_append, List.mem_map]
          constructor
          · rintro (⟨c, hc, rfl⟩ | h)
            · obtain ⟨hs, hl⟩ := (ih n c).mp hc
              exact ⟨hs.cons₂ x, by simp [hl]⟩
            · obtain ⟨hs, hl⟩ := (ih (n + 1) s).mp h
              exact ⟨hs.cons x, hl⟩
          · rintro ⟨hs, hl⟩
            rcases List.sublist_cons_iff.mp hs with hs2 | ⟨r, rfl, hr⟩
            · exact Or.inr ((ih (n + 1) s).mpr ⟨hs2, hl⟩)
            · exact Or.inl ⟨r, (ih n r).mpr ⟨hr, by simpa using hl⟩, rfl⟩

lemma combinations_take {α : Type} (l : List α) (h : 5 ≤ l.length) :
    l.take 5 ∈ combinations 5 l :=
  (mem_combinations 5 l (l.take 5)).mpr
    ⟨List.take_sublist 5 l, by simp [List.length_take]; omega⟩

lemma combinations_ne_nil (l : List Card) (h : 5 ≤ l.length) :
    combinations 5 l ≠ [] := by
  intro hnil
  have := combinations_take l h
  rw [hnil] at this
  exact List.not_mem_nil _ this

lemma foldBest_mem (x : ScoredHand) (xs : List ScoredHand) :
    foldBest x xs ∈ x :: xs := by
  induction xs generalizing x with
  | nil => simp [foldBest]
  | cons y ys ih =>
      have h := ih (if x.value < y.value then y else x)
      simp only [foldBest, List.foldl_cons] at *
      rcases List.mem_cons.mp h with h2 | h2
      · rw [h2]
        split <;> simp
      · simp [h2]

lemma foldBest_ge (x : ScoredHand) (xs : List ScoredHand) :
    ∀ y ∈ x :: xs, y.value ≤ (foldBest x xs).value := by
  induction xs generalizing x with
  | nil => simp [foldBest]
  | cons z zs ih =>
      intro y hy
      have step : ∀ w ∈ (if x.value < z.value then z else x) :: zs,
          w.value ≤ (foldBest (if x.value < z.value then z else x) zs).value :=
        ih _
      have hxle : x.value ≤ (if x.value < z.value then z else x).value := by
        split <;> omega
      have hzle : z.value ≤ (if x.value < z.value then z else x).value := by
        split <;> omega
      have hfold : foldBest x (z :: zs) = foldBest (if x.value < z.value then z else x) zs := by
        simp [foldBest]
      rcases List.mem_cons.mp hy with rfl | hy2
      · rw [hfold]
        exact le_trans hxle (step _ (by simp))
      · rcases List.mem_cons.mp hy2 with rfl | hy3
        · rw [hfold]
          exact le_trans hzle (step _ (by simp))
        · rw [hfold]
          exact step y (by simp [hy3])

lemma foldBest_first (x : ScoredHand) (xs : List ScoredHand) :
    (x :: xs).find? (fun y => (foldBest x xs).value ≤ y.value) = some (foldBest x xs) := by
  induction xs generalizing x with
  | nil =>
      simp [foldBest, List.find?]
  | cons z zs ih =>
      by_cases hxz : x.value < z.value
      · have hx : foldBest x (z :: zs) = foldBest z zs := by
          simp [foldBest, if_pos hxz]
        have hzr : z.value ≤ (foldBest z zs).value := foldBest_ge z zs z (by simp)
        rw [hx]
        rw [List.find?_cons_of_neg _ (by simp; omega)]
        exact ih z
      · have hx : foldBest x (z :: zs) = foldBest x zs := by
          simp [foldBest, if_neg hxz]
        have hzx : z.value ≤ x.value := by omega
        have hone := ih x
        rw [hx]
        by_cases hpx : (foldBest x zs).value ≤ x.value
        · rw [List.find?_cons_of_pos _ (by simpa using hpx)]
          rw [List.find?_cons_of_pos _ (by simpa using hpx)] at hone
          exact hone
        · rw [List.find?_cons_of_neg _ (by simpa using hpx)]
          rw [List.find?_cons_of_neg _ (by simp; omega)]
          rw [List.find?_cons_of_neg _ (by simpa using hpx)] at hone
          exact hone


/-! ### Machinery for `winning_hands` -/

instance : IsTotal PlayerBest fun a b => b.value ≤ a.value :=
  ⟨fun a b => Nat.le_total b.value a.value⟩

instance : IsTrans PlayerBest fun a b => b.value ≤ a.value :=
  ⟨fun _ _ _ hab hbc => Nat.le_trans hbc hab⟩

lemma le_foldl_max (l : List Nat) (a : Nat) : a ≤ l.foldl Nat.max a := by
  induction l generalizing a with
  | nil => exact Nat.le_refl a
  | cons b l ih => exact Nat.le_trans (Nat.le_max_left a b) (ih _)

lemma mem_le_foldl_max (l : List Nat) (a : Nat) : ∀ x ∈ l, x ≤ l.foldl Nat.max a := by
  induction l generalizing a with
  | nil => simp
  | cons b l ih =>
      intro x hx
      rcases List.mem_cons.mp hx with rfl | hx2
      · exact Nat.le_trans (Nat.le_max_right a x) (le_foldl_max l _)
      · exact ih _ x hx2

lemma foldl_max_cases (l : List Nat) (a : Nat) :
    l.foldl Nat.max a = a ∨ l.foldl Nat.max a ∈ l := by
  induction l generalizing a with
  | nil => exact Or.inl rfl
  | cons b l ih =>
      rcases ih (Nat.max a b) with h | h
      · rw [List.foldl_cons, h]
        rcases Nat.le_total a b with hab | hab
        · refine Or.inr ?_
          rw [show Nat.max a b = b from Nat.max_eq_right hab]
          exact List.mem_cons_self b l
        · exact Or.inl (Nat.max_eq_left hab)
      · exact Or.inr (by simp [h])

/-! ### Permutation invariance of `distinctCount` -/

lemma firstOccs_aux_mem {α : Type} [DecidableEq α] (l : List α) :
    ∀ (acc : List α) (x : α),
      x ∈ l.foldl (fun acc a => if a ∈ acc then acc else acc ++ [a]) acc ↔
        x ∈ acc ∨ x ∈ l := by
  induction l with
  | nil => simp
  | cons a l ih =>
      intro acc x
      rw [List.foldl_cons]
      rw [ih]
      by_cases ha : a ∈ acc
      · rw [if_pos ha]
        constructor
        · rintro (h | h)
          · exact Or.inl h
          · exact Or.inr (by simp [h])
        · rintro (h | h)
          · exact Or.inl h
          · rcases List.mem_cons.mp h with rfl | h2
            · exact Or.inl ha
            · exact Or.inr h2
      · rw [if_neg ha]
        simp only [List.mem_append, List.mem_singleton, List.mem_cons]
        tauto

lemma firstOccs_aux_nodup {α : Type} [DecidableEq α] (l : List α) :
    ∀ acc : List α, acc.Nodup →
      (l.foldl (fun acc a => if a ∈ acc then acc else acc ++ [a]) acc).Nodup := by
  induction l with
  | nil => exact fun acc h => h
  | cons a l ih =>
      intro acc hacc
      rw [List.foldl_cons]
      by_cases ha : a ∈ acc
      · rw [if_pos ha]; exact ih acc hacc
      · rw [if_neg ha]
        refine ih _ ?_
        simp [List.nodup_append, hacc, ha]

lemma mem_firstOccs {α : Type} [DecidableEq α] (l : List α) (x : α) :
    x ∈ firstOccs l ↔ x ∈ l := by
  rw [firstOccs, firstOccs_aux_mem]
  simp

lemma nodup_firstOccs {α : Type} [DecidableEq α] (l : List α) :
    (firstOccs l).Nodup :=
  firstOccs_aux_nodup l [] List.nodup_nil

lemma distinctCount_perm {α : Type} [DecidableEq α] {l l' : List α}
    (h : l.Perm l') : distinctCount l = distinctCount l' := by
  have h1 : (firstOccs l).toFinset = (firstOccs l').toFinset := by
    ext x
    simp [List.mem_toFinset, mem_firstOccs, h.mem_iff]
  have h2 := List.toFinset_card_of_nodup (nodup_firstOccs l)
  have h3 := List.toFinset_card_of_nodup (nodup_firstOccs l')
  unfold distinctCount
  rw [← h2, ← h3, h1]

/-! ### Invariants of the interning pool -/

/-- The final pool state after a sequence of constructions. -/
def card_new_run_state : List (Nat × Nat) → PoolState → PoolState
  | [], st => st
  | (s, r) :: rest, st => card_new_run_state rest (card_new st s r).2

/-- Pool well-formedness: distinct keys, distinct object identifiers, all
identifiers below the allocation counter. -/
def PoolInv (st : PoolState) : Prop :=
  (st.pool.map Prod.fst).Nodup ∧ (st.pool.map Prod.snd).Nodup ∧
    ∀ p ∈ st.pool, p.2 < st.nextId

lemma poolFind_mem {pool : List ((Nat × Nat) × Nat)} {k : Nat × Nat} {v : Nat}
    (h : poolFind pool k = some v) : (k, v) ∈ pool := by
  induction pool with
  | nil => simp [poolFind] at h
  | cons p rest ih =>
      rw [poolFind] at h
      split at h
      · rename_i heq
        cases h
        exact List.mem_cons.mpr (Or.inl (by rw [← heq]))
      · simp [ih h]

lemma poolFind_none_iff {pool : List ((Nat × Nat) × Nat)} {k : Nat × Nat} :
    poolFind pool k = none ↔ k ∉ pool.map Prod.fst := by
  induction pool with
  | nil => simp [poolFind]
  | cons p rest ih =>
      rw [poolFind]
      split
      · rename_i heq
        simp [heq]
      · rename_i hne
        simp only [List.map_cons, List.mem_cons, ih]
        constructor
        · intro h hk
          rcases hk with hk | hk
          · exact hne hk.symm
          · exact h hk
        · intro h
          exact fun hk => h (Or.inr hk)

lemma poolFind_append_left {pool l : List ((Nat × Nat) × Nat)} {k : Nat × Nat}
    {v : Nat} (h : poolFind pool k = some v) : poolFind (pool ++ l) k = some v := by
  induction pool with
  | nil => simp [poolFind] at h
  | cons p rest ih =>
      rw [List.cons_append, poolFind]
      rw [poolFind] at h
      split at h
      · rename_i heq
        rw [if_pos heq]
        exact h
      · rename_i hne
        rw [if_neg hne]
        exact ih h

lemma poolFind_append_new {pool : List ((Nat × Nat) × Nat)} {k : Nat × Nat}
    {v : Nat} (h : poolFind pool k = none) :
    poolFind (pool ++ [(k, v)]) k = some v := by
  induction pool with
  | nil => simp [poolFind]
  | cons p rest ih =>
      rw [poolFind] at h
      split at h
      · cases h
      · rename_i hne
        rw [List.cons_append, poolFind, if_neg hne]
        exact ih h

lemma card_new_find (st : PoolState) (s r : Nat) :
    poolFind (card_new st s r).2.pool (s, r) = some (card_new st s r).1 := by
  unfold card_new
  cases h : poolFind st.pool (s, r) with
  | some oid => simpa using h
  | none => simpa using poolFind_append_new h

lemma card_new_preserves_find (st : PoolState) (s r : Nat) {k : Nat × Nat} {v : Nat}
    (h : poolFind st.pool k = some v) :
    poolFind (card_new st s r).2.pool k = some v := by
  unfold card_new
  cases hf : poolFind st.pool (s, r) with
  | some oid => simpa using h
  | none => simpa using poolFind_append_left h

lemma card_new_inv (st : PoolState) (s r : Nat) (hinv : PoolInv st) :
    PoolInv (card_new st s r).2 := by
  obtain ⟨hk, hv, hb⟩ := hinv
  unfold card_new
  cases hf : poolFind st.pool (s, r) with
  | some oid => exact ⟨hk, hv, hb⟩
  | none =>
      refine ⟨?_, ?_, ?_⟩
      · simp only [List.map_append, List.map_cons, List.map_nil]
        rw [List.nodup_append]
        exact ⟨hk, List.nodup_singleton _,
          by simpa using fun hm => (poolFind_none_iff.mp hf) hm⟩
      · simp only [List.map_append, List.map_cons, List.map_nil]
        rw [List.nodup_append]
        refine ⟨hv, List.nodup_singleton _, ?_⟩
        intro x hx
        simp only [List.mem_singleton]
        intro hxe
        obtain ⟨p, hp, hp2⟩ := List.mem_map.mp hx
        have := hb p hp
        omega
      · intro p hp
        rcases List.mem_append.mp hp with hp2 | hp2
        · have := hb p hp2
          simp only
          omega
        · simp only [List.mem_singleton] at hp2
          subst hp2
          simp

lemma run_state_preserves_find (reqs : List (Nat × Nat)) (st : PoolState)
    {k : Nat × Nat} {v : Nat} (h : poolFind st.pool k = some v) :
    poolFind (card_new_run_state reqs st).pool k = some v := by
  induction reqs generalizing st with
  | nil => exact h
  | cons q rest ih =>
      obtain ⟨s, r⟩ := q
      exact ih _ (card_new_preserves_find st s r h)

lemma run_state_inv (reqs : List (Nat × Nat)) (st : PoolState) (h : PoolInv st) :
    PoolInv (card_new_run_state reqs st) := by
  induction reqs generalizing st with
  | nil => exact h
  | cons q rest ih =>
      obtain ⟨s, r⟩ := q
      exact ih _ (card_new_inv st s r h)

lemma card_new_run_length (reqs : List (Nat × Nat)) (st : PoolState) :
    (card_new_run reqs st).length = reqs.length := by
  induction reqs generalizing st with
  | nil => rfl
  | cons q rest ih =>
      obtain ⟨s, r⟩ := q
      simp [card_new_run, ih]

/-- Every reported identifier is what the final pool maps its request key
to. -/
lemma run_find (reqs : List (Nat × Nat)) (st : PoolState) :
    ∀ i, i < reqs.length →
      poolFind (card_new_run_state reqs st).pool (reqs.getD i (0, 0)) =
        some ((card_new_run reqs st).getD i 0) := by
  induction reqs generalizing st with
  | nil => intro i hi; simp at hi
  | cons q rest ih =>
      obtain ⟨s, r⟩ := q
      intro i hi
      cases i with
      | zero =>
          simp only [card_new_run, card_new_run_state, List.getD_cons_zero]
          exact run_state_preserves_find rest _ (card_new_find st s r)
      | succ i =>
          simp only [card_new_run, card_new_run_state, List.getD_cons_succ]
          exact ih _ i (by simpa using hi)

lemma poolFind_inj {st : PoolState} (hinv : PoolInv st) {k1 k2 : Nat × Nat}
    {v : Nat} (h1 : poolFind st.pool k1 = some v) (h2 : poolFind st.pool k2 = some v) :
    k1 = k2 := by
  have m1 := poolFind_mem h1
  have m2 := poolFind_mem h2
  have := List.inj_on_of_nodup_map hinv.2.1 m1 m2 rfl
  exact congrArg Prod.fst this

lemma initPool_inv : PoolInv initPool := by
  refine ⟨by simp [initPool], by simp [initPool], by simp [initPool]⟩


/-! ### Spec payload formula and concrete hands -/

lemma payloadDesc_eq (s : List Nat) (h5 : s.length = 5) :
    payloadDesc s = highPayload s := by
  rcases s with _ | ⟨a, _ | ⟨b, _ | ⟨c, _ | ⟨d, _ | ⟨e, _ | ⟨f, t⟩⟩⟩⟩⟩⟩ <;> simp at h5
  have hr : List.range 5 = [0, 1, 2, 3, 4] := rfl
  rw [highPayload_five]
  simp [payloadDesc, hr]
  ring

lemma straightSpecB_iff (s : List Nat) :
    straightSpecB s = true ↔
      ((∃ a, s = [a, a + 1, a + 2, a + 3, a + 4]) ∨ s = [2, 3, 4, 5, 14]) := by
  constructor
  · intro h
    simp only [straightSpecB, consecB, wheelSpecB, Bool.or_eq_true, beq_iff_eq] at h
    rcases h with h | h
    · exact Or.inl ⟨s.headD 0, h⟩
    · exact Or.inr h
  · rintro (⟨a, rfl⟩ | rfl) <;>
      simp [straightSpecB, consecB, wheelSpecB]

/-- `{A♠, 9♦, T♣, 8♣, Q♥}`: the spec's high-card scenario. -/
def exHigh : List Card :=
  [Card.mk .SPADES .ACE, Card.mk .DIAMONDS .NINE, Card.mk .CLUBS .TEN,
    Card.mk .CLUBS .EIGHT, Card.mk .HEARTS .QUEEN]

/-- `{8♣, 9♦, T♥, 7♥, 6♥}`: the spec's 6-to-10 straight scenario. -/
def exStraight : List Card :=
  [Card.mk .CLUBS .EIGHT, Card.mk .DIAMONDS .NINE, Card.mk .HEARTS .TEN,
    Card.mk .HEARTS .SEVEN, Card.mk .HEARTS .SIX]

/-- `{A♠, 5♥, 4♥, 2♥, 3♥}`: the spec's mixed-suit wheel scenario. -/
def exWheel : List Card :=
  [Card.mk .SPADES .ACE, Card.mk .HEARTS .FIVE, Card.mk .HEARTS .FOUR,
    Card.mk .HEARTS .TWO, Card.mk .HEARTS .THREE]

/-- `{T♥, K♥, J♥, Q♥, A♥}`: the spec's royal-flush scenario. -/
def exRoyal : List Card :=
  [Card.mk .HEARTS .TEN, Card.mk .HEARTS .KING, Card.mk .HEARTS .JACK,
    Card.mk .HEARTS .QUEEN, Card.mk .HEARTS .ACE]

/-- The seven cards of the repository's `BestHandTestCase`. -/
def exSeven : List Card :=
  [Card.mk .SPADES .ACE, Card.mk .SPADES .KING, Card.mk .SPADES .EIGHT,
    Card.mk .HEARTS .KING, Card.mk .DIAMONDS .NINE, Card.mk .HEARTS .ACE,
    Card.mk .HEARTS .EIGHT]

/-- Six spades, containing a royal flush. -/
def exSix : List Card :=
  [Card.mk .SPADES .ACE, Card.mk .SPADES .KING, Card.mk .SPADES .QUEEN,
    Card.mk .SPADES .JACK, Card.mk .SPADES .TEN, Card.mk .SPADES .NINE]

/-- The royal-flush community board of the spec's split-pot scenario. -/
def exCommunity : List Card :=
  [Card.mk .SPADES .ACE, Card.mk .SPADES .KING, Card.mk .SPADES .QUEEN,
    Card.mk .SPADES .JACK, Card.mk .SPADES .TEN]

/-- Player 1 hole cards of the split-pot scenario. -/
def exHole1 : List Card := [Card.mk .SPADES .TWO, Card.mk .HEARTS .THREE]

/-- Player 2 hole cards of the split-pot scenario. -/
def exHole2 : List Card := [Card.mk .HEARTS .TWO, Card.mk .DIAMONDS .FOUR]


/-! ### The claims -/

/-- C1: for 5-card hands `A` and `B`, if `A`'s canonical hand category
strictly outranks `B`'s (categories numbered 0 = high card up to
9 = royal flush, in the canonical poker order), then
`value_hand A > value_hand B` regardless of kickers; equivalently every
within-tier payload stays below the `10^6` spacing of the tier bases, so
the tiers never overlap — both scores lie inside their category's band. -/
theorem claim1_tier_ordering (A B : List Card) (hA : A.length = 5)
    (hB : B.length = 5) (h : category B < category A) :
    value_hand B < value_hand A ∧
    category A * 1000000 ≤ value_hand A ∧
    value_hand A < category A * 1000000 + 1000000 ∧
    category B * 1000000 ≤ value_hand B ∧
    value_hand B < category B * 1000000 + 1000000 := by
  have bA := band_of_hand A hA
  have bB := band_of_hand B hB
  exact ⟨by omega, bA.1, bA.2, bB.1, bB.2⟩

theorem claim1_tier_ordering_witness :
    exStraight.length = 5 ∧ exHigh.length = 5 ∧ category exHigh < category exStraight ∧
    value_hand exHigh < value_hand exStraight :=
  ⟨by decide, by decide, by decide,
    (claim1_tier_ordering exStraight exHigh (by decide) (by decide) (by decide)).1⟩

/-- C4: `value_hand` depends only on the multiset of cards: permuting a
5-card hand leaves the score unchanged. -/
theorem claim4_order_invariance (h h2 : List Card) (hp : h.Perm h2)
    (h5 : h.length = 5) : value_hand h = value_hand h2 := by
  have hs : sortRanks h = sortRanks h2 := by
    refine List.eq_of_perm_of_sorted ?_ (sortRanks_sorted h) (sortRanks_sorted h2)
    exact ((sortRanks_perm h).trans (hp.map _)).trans (sortRanks_perm h2).symm
  have hsc : suitCount h = suitCount h2 := distinctCount_perm (hp.map _)
  unfold value_hand
  rw [hs, hsc]

theorem claim4_order_invariance_witness :
    exHigh.Perm exHigh.reverse ∧ exHigh.length = 5 ∧
    value_hand exHigh = value_hand exHigh.reverse :=
  ⟨by decide, by decide,
    claim4_order_invariance exHigh exHigh.reverse (by decide) (by decide)⟩

/-- C5: for a 5-card hand that is not all one suit, the scorer's straight
test holds exactly when the sorted rank values are five distinct
consecutive values or the wheel `A-2-3-4-5` (sorted `[2,3,4,5,14]`), and a
straight then scores the `STRAIGHT` base `4·10^6` plus the high-end rank,
`FIVE = 5` for the wheel (so the wheel ranks below a 6-high straight); in
particular the mixed-suit wheel scores `4000005` (see the witness). -/
theorem claim5_straight_detection (h : List Card) (h5 : h.length = 5)
    (hnf : suitCount h ≠ 1) :
    (isStraightB (sortRanks h) = true ↔
      ((∃ a, sortRanks h = [a, a + 1, a + 2, a + 3, a + 4]) ∨
        sortRanks h = [2, 3, 4, 5, 14])) ∧
    (isStraightB (sortRanks h) = true →
      value_hand h = 4000000 +
        (if sortRanks h = [2, 3, 4, 5, 14] then 5 else (sortRanks h).getD 4 0)) := by
  have m := masterProp_of_hand h h5
  have hiff := m.2.2.2.2.1
  have hstr := m.2.2.2.2.2.1
  have hflag : (suitCount h == 1) = false := by
    simp only [beq_eq_false_iff_ne, ne_eq]
    exact hnf
  constructor
  · rw [hiff]
    exact straightSpecB_iff _
  · intro hstrt
    have hv := hstr hstrt
    have h1 : value_hand h = valueHandRanks (sortRanks h) false := by
      unfold value_hand
      rw [hflag]
    rw [h1, hv]
    simp only [straightHigh, wheelSpecB, beq_iff_eq]

theorem claim5_straight_detection_witness :
    exWheel.length = 5 ∧ suitCount exWheel ≠ 1 ∧
    isStraightB (sortRanks exWheel) = true ∧ value_hand exWheel = 4000005 := by
  refine ⟨by decide, by decide, by decide, ?_⟩
  have hv := (claim5_straight_detection exWheel (by decide) (by decide)).2 (by decide)
  rw [if_pos (show sortRanks exWheel = [2, 3, 4, 5, 14] by decide)] at hv
  simpa using hv

/-- C6: a 5-card hand that is a flush and a straight simultaneously scores
exactly `9000000` (the `ROYAL` base, no payload) when its rank set is
`{TEN, JACK, QUEEN, KING, ACE}`, and otherwise the `STRAIGHT_FLUSH` base
`8·10^6` plus the straight's high rank (`FIVE` for the wheel). -/
theorem claim6_straight_flush (h : List Card) (h5 : h.length = 5)
    (hf : suitCount h = 1) (hst : isStraightB (sortRanks h) = true) :
    value_hand h = if sortRanks h = [10, 11, 12, 13, 14] then 9000000
      else 8000000 +
        (if sortRanks h = [2, 3, 4, 5, 14] then 5 else (sortRanks h).getD 4 0) := by
  have m := masterProp_of_hand h h5
  have hv := m.2.2.2.2.2.2.1 hst
  have hflag : (suitCount h == 1) = true := by
    simp [hf]
  have h1 : value_hand h = valueHandRanks (sortRanks h) true := by
    unfold value_hand
    rw [hflag]
  rw [h1, hv]
  simp only [straightHigh, wheelSpecB, beq_iff_eq]

theorem claim6_straight_flush_witness :
    exRoyal.length = 5 ∧ suitCount exRoyal = 1 ∧
    isStraightB (sortRanks exRoyal) = true ∧ value_hand exRoyal = 9000000 := by
  refine ⟨by decide, by decide, by decide, ?_⟩
  have hv := claim6_straight_flush exRoyal (by decide) (by decide) (by decide)
  rw [if_pos (show sortRanks exRoyal = [10, 11, 12, 13, 14] by decide)] at hv
  exact hv

/-- C7: for a 5-card hand with five distinct ranks and no straight (so a
high-card hand, or a flush that is not a straight), the payload added to
the tier base (`0` for high card, `FLUSH = 5·10^6` for a flush) is the
positional sum over the cards in descending rank order with the most
significant card carrying the largest weight: `Σ 14^(4-i) · rank(desc i)`,
equivalently `Σ 14^i · rank(asc i)` — the reading the spec pins down with
its concrete scenario `{A♠, 9♦, T♣, 8♣, Q♥} → 572846` (see the
witness). -/
theorem claim7_payload_formula (h : List Card) (h5 : h.length = 5)
    (hnd : (sortRanks h).Nodup) (hns : straightSpecB (sortRanks h) = false) :
    value_hand h =
      (if suitCount h = 1 then 5000000 else 0) + payloadDesc (sortRanks h) ∧
    payloadDesc (sortRanks h) = highPayload (sortRanks h) := by
  have m := masterProp_of_hand h h5
  have hiff := m.2.2.2.2.1
  have hsf : isStraightB (sortRanks h) = false := by
    cases hb : isStraightB (sortRanks h)
    · rfl
    · exfalso
      have := hiff.mp hb
      rw [hns] at this
      cases this
  have hval := m.2.2.2.2.2.2.2 hnd hsf
  have hlen : (sortRanks h).length = 5 := by rw [sortRanks_length, h5]
  have hpd := payloadDesc_eq (sortRanks h) hlen
  refine ⟨?_, hpd⟩
  cases hflag : (suitCount h == 1) with
  | false =>
      have h1 : value_hand h = valueHandRanks (sortRanks h) false := by
        unfold value_hand
        rw [hflag]
      have hne : suitCount h ≠ 1 := by simpa using hflag
      rw [h1, hval.1, if_neg hne, hpd]
      omega
  | true =>
      have h1 : value_hand h = valueHandRanks (sortRanks h) true := by
        unfold value_hand
        rw [hflag]
      have heq : suitCount h = 1 := by simpa using hflag
      rw [h1, hval.2, if_pos heq, hpd]

theorem claim7_payload_formula_witness :
    exHigh.length = 5 ∧ (sortRanks exHigh).Nodup ∧
    straightSpecB (sortRanks exHigh) = false ∧ suitCount exHigh ≠ 1 ∧
    value_hand exHigh = 572846 ∧ payloadDesc (sortRanks exHigh) = 572846 := by
  refine ⟨by decide, by decide, by decide, by decide, ?_, by decide⟩
  have hv := (claim7_payload_formula exHigh (by decide) (by decide) (by decide)).1
  rw [if_neg (show ¬ suitCount exHigh = 1 by decide)] at hv
  rw [show payloadDesc (sortRanks exHigh) = 572846 by decide] at hv
  simpa using hv


/-- C2: with at least one player and 5 community cards, `winning_hands`
returns a non-empty list which is, up to the (stable) sort's reordering,
exactly the per-player entries whose best five-card score equals the
maximum best score across all players; every returned entry carries that
player's original hole cards. -/
theorem claim2_winner_resolution (hole_cards : List (List Card))
    (community : List Card) (hne : hole_cards ≠ []) (hc : community.length = 5) :
    winning_hands hole_cards community ≠ [] ∧
    (winning_hands hole_cards community).Perm
      ((hole_cards.map fun ph => playerBest ph community).filter
        fun b => b.value == maxScore hole_cards community) ∧
    ∀ b ∈ winning_hands hole_cards community,
      b.value = maxScore hole_cards community ∧ b.hole_cards ∈ hole_cards := by
  set players := hole_cards.map fun ph => playerBest ph community with hplayers
  set sorted := players.insertionSort (fun a b => b.value ≤ a.value) with hsorted
  have hperm : sorted.Perm players := List.perm_insertionSort _ _
  have hpne : players ≠ [] := by
    intro h0
    apply hne
    rw [hplayers] at h0
    exact List.map_eq_nil.mp h0
  have hsne : sorted ≠ [] := by
    intro h0
    apply hpne
    have hlen := hperm.length_eq
    rw [h0] at hlen
    exact List.length_eq_zero.mp hlen.symm
  obtain ⟨h0, t, hst⟩ := List.exists_cons_of_ne_nil hsne
  have hss : sorted.Sorted (fun a b => b.value ≤ a.value) :=
    List.sorted_insertionSort _ _
  have hdom : ∀ y ∈ t, y.value ≤ h0.value := by
    rw [hst, List.sorted_cons] at hss
    exact hss.1
  have h0mem : h0 ∈ players :=
    hperm.mem_iff.mp (by rw [hst]; exact List.mem_cons_self _ _)
  have hmax : h0.value = maxScore hole_cards community := by
    have hle : h0.value ≤ maxScore hole_cards community := by
      unfold maxScore
      rw [← hplayers]
      exact mem_le_foldl_max _ 0 _ (List.mem_map.mpr ⟨h0, h0mem, rfl⟩)
    have hge : maxScore hole_cards community ≤ h0.value := by
      unfold maxScore
      rw [← hplayers]
      rcases foldl_max_cases (players.map fun b => b.value) 0 with hc2 | hc2
      · rw [hc2]
        exact Nat.zero_le _
      · obtain ⟨p, hp, hpv⟩ := List.mem_map.mp hc2
        rw [← hpv]
        have hps : p ∈ sorted := hperm.mem_iff.mpr hp
        rw [hst] at hps
        rcases List.mem_cons.mp hps with rfl | hpt
        · exact Nat.le_refl _
        · exact hdom p hpt
    omega
  have hwin : winning_hands hole_cards community =
      sorted.filter fun hand => hand.value == h0.value := by
    simp only [winning_hands]
    rw [← hplayers, ← hsorted, hst]
    simp
  refine ⟨?_, ?_, ?_⟩
  · rw [hwin, hst]
    intro hnil
    have hmem : h0 ∈ List.filter (fun hand => hand.value == h0.value) (h0 :: t) := by
      rw [List.mem_filter]
      exact ⟨List.mem_cons_self _ _, by simp⟩
    rw [hnil] at hmem
    exact List.not_mem_nil _ hmem
  · rw [hwin, hmax]
    exact hperm.filter _
  · intro b hb
    rw [hwin, List.mem_filter] at hb
    obtain ⟨hbs, hbv⟩ := hb
    have hbv2 : b.value = maxScore hole_cards community := by
      rw [← hmax]
      simpa using hbv
    refine ⟨hbv2, ?_⟩
    have hbp : b ∈ players := hperm.mem_iff.mp hbs
    rw [hplayers] at hbp
    obtain ⟨ph, hph, rfl⟩ := List.mem_map.mp hbp
    simpa [playerBest] using hph

theorem claim2_winner_resolution_witness :
    ([exHole1, exHole2] : List (List Card)) ≠ [] ∧ exCommunity.length = 5 ∧
    winning_hands [exHole1, exHole2] exCommunity ≠ [] ∧
    (winning_hands [exHole1, exHole2] exCommunity).length = 2 := by
  have h := claim2_winner_resolution [exHole1, exHole2] exCommunity
    (by decide) (by decide)
  refine ⟨by decide, by decide, h.1, ?_⟩
  rw [h.2.1.length_eq]
  decide

/-- C3: for N ≥ 5 distinct cards, `best_five_card_hand` returns a 5-card
subsequence of the input together with its `value_hand` score, and that
score is the maximum of `value_hand` over all 5-card subsequences. -/
theorem claim3_best_five (cl : List Card) (hnd : cl.Nodup) (h5 : 5 ≤ cl.length) :
    (best_five_card_hand cl).five_card_hand.Sublist cl ∧
    (best_five_card_hand cl).five_card_hand.length = 5 ∧
    (best_five_card_hand cl).value = value_hand (best_five_card_hand cl).five_card_hand ∧
    ∀ s : List Card, s.Sublist cl → s.length = 5 →
      value_hand s ≤ (best_five_card_hand cl).value := by
  have hne := combinations_ne_nil cl h5
  cases hmap : (combinations 5 cl).map (fun c => ScoredHand.mk c (value_hand c)) with
  | nil => exact absurd (by simpa using hmap) hne
  | cons x xs =>
      have hbest : best_five_card_hand cl = foldBest x xs := by
        unfold best_five_card_hand
        rw [hmap]
      have hmem : best_five_card_hand cl ∈ x :: xs := by
        rw [hbest]
        exact foldBest_mem x xs
      rw [← hmap] at hmem
      obtain ⟨c, hcm, hbc⟩ := List.mem_map.mp hmem
      obtain ⟨hsub, hlen⟩ := (mem_combinations 5 cl c).mp hcm
      have hfch : (best_five_card_hand cl).five_card_hand = c := by rw [← hbc]
      have hval : (best_five_card_hand cl).value = value_hand c := by rw [← hbc]
      refine ⟨by rw [hfch]; exact hsub, by rw [hfch, hlen], by rw [hfch, hval], ?_⟩
      intro s hs hsl
      have hsmem : ScoredHand.mk s (value_hand s) ∈ x :: xs := by
        rw [← hmap]
        exact List.mem_map.mpr ⟨s, (mem_combinations 5 cl s).mpr ⟨hs, hsl⟩, rfl⟩
      have hge := foldBest_ge x xs _ hsmem
      rw [← hbest] at hge
      simpa using hge

theorem claim3_best_five_witness :
    exSeven.Nodup ∧ 5 ≤ exSeven.length ∧
    (best_five_card_hand exSeven).five_card_hand.Sublist exSeven ∧
    (best_five_card_hand exSeven).five_card_hand.length = 5 ∧
    value_hand (exSeven.take 5) ≤ (best_five_card_hand exSeven).value := by
  have h := claim3_best_five exSeven (by decide) (by decide)
  exact ⟨by decide, by decide, h.1, h.2.1,
    h.2.2.2 (exSeven.take 5) (List.take_sublist 5 exSeven) (by decide)⟩

/-- C10: the `ScoredHand` returned by `best_five_card_hand` is the first
entry, in `itertools.combinations` enumeration order, whose score equals
the maximum — Python's `max` keeps the first maximal element — so the full
output (the selected cards, not just the score) is a deterministic
function of the input order. -/
theorem claim10_first_max_selection (cl : List Card) (h5 : 5 ≤ cl.length) :
    (∀ y ∈ (combinations 5 cl).map fun c => ScoredHand.mk c (value_hand c),
        y.value ≤ (best_five_card_hand cl).value) ∧
    ((combinations 5 cl).map fun c => ScoredHand.mk c (value_hand c)).find?
        (fun y => (best_five_card_hand cl).value ≤ y.value) =
      some (best_five_card_hand cl) := by
  have hne := combinations_ne_nil cl h5
  cases hmap : (combinations 5 cl).map (fun c => ScoredHand.mk c (value_hand c)) with
  | nil => exact absurd (by simpa using hmap) hne
  | cons x xs =>
      have hbest : best_five_card_hand cl = foldBest x xs := by
        unfold best_five_card_hand
        rw [hmap]
      constructor
      · intro y hy
        rw [hbest]
        exact foldBest_ge x xs y hy
      · rw [hbest]
        exact foldBest_first x xs

theorem claim10_first_max_selection_witness :
    5 ≤ exSix.length ∧
    ((combinations 5 exSix).map fun c => ScoredHand.mk c (value_hand c)).find?
        (fun y => (best_five_card_hand exSix).value ≤ y.value) =
      some (best_five_card_hand exSix) ∧
    (best_five_card_hand exSix).five_card_hand =
      [Card.mk .SPADES .ACE, Card.mk .SPADES .KING, Card.mk .SPADES .QUEEN,
        Card.mk .SPADES .JACK, Card.mk .SPADES .TEN] :=
  ⟨by decide, (claim10_first_max_selection exSix (by decide)).2, by decide⟩

/-- C8, counterexample: `Card.__new__` performs no validation at all —
constructing a card with suit value 99 and rank value 99, both outside the
`Suit` and `Rank` enumerations (`Suit.fromValue 99 = none`,
`Rank.fromValue 99 = none`), is not rejected: it allocates and returns a
card object (identifier 0) and stores it in the pool. -/
theorem claim8_no_validation_counterexample :
    Suit.fromValue 99 = none ∧ Rank.fromValue 99 = none ∧
    card_new initPool 99 99 = (0, PoolState.mk [((99, 99), 0)] 1) := by
  decide

/-- C8, amended: `Card.__new__` itself rejects nothing — every call, with
any raw suit/rank values whatsoever, produces a card object registered in
the pool; range validation exists only when constructing the `Suit` and
`Rank` enumeration members themselves from raw values, which succeeds
exactly on the defined values (`0..3` for suits, `2..14` for ranks) and is
rejected otherwise. -/
theorem claim8_enum_validation_amended :
    (∀ (st : PoolState) (s r : Nat),
        poolFind (card_new st s r).2.pool (s, r) = some (card_new st s r).1) ∧
    (∀ v : Nat, (Suit.fromValue v).isSome ↔ v < 4) ∧
    (∀ v : Nat, (Rank.fromValue v).isSome ↔ 2 ≤ v ∧ v ≤ 14) := by
  refine ⟨card_new_find, ?_, ?_⟩
  · intro v
    rcases v with _ | _ | _ | _ | v <;> simp [Suit.fromValue] <;> omega
  · intro v
    rcases v with _ | _ | _ | _ | _ | _ | _ | _ | _ | _ | _ | _ | _ | _ | _ | v <;>
      simp [Rank.fromValue] <;> omega

/-- C9: starting from the empty pool attached to `Card.__new__`, any
sequence of `Card(suit, rank)` constructions returns the one interned
object per `(suit, rank)` pair — the first call allocates and stores it,
later calls return the identical object — so two construction results are
the same object exactly when their `(suit, rank)` arguments are equal:
card equality coincides with object identity. -/
theorem claim9_interning (reqs : List (Nat × Nat)) (i j : Nat)
    (hi : i < reqs.length) (hj : j < reqs.length) :
    ((card_new_run reqs initPool).getD i 0 = (card_new_run reqs initPool).getD j 0 ↔
      reqs.getD i (0, 0) = reqs.getD j (0, 0)) := by
  have hfi := run_find reqs initPool i hi
  have hfj := run_find reqs initPool j hj
  have hinv := run_state_inv reqs initPool initPool_inv
  constructor
  · intro h
    rw [h] at hfi
    exact poolFind_inj hinv hfi hfj
  · intro h
    rw [h] at hfi
    have := hfi.symm.trans hfj
    exact Option.some.inj this

theorem claim9_interning_witness :
    card_new_run [(0, 2), (1, 3), (0, 2)] initPool = [0, 1, 0] ∧
    0 < ([(0, 2), (1, 3), (0, 2)] : List (Nat × Nat)).length ∧
    2 < ([(0, 2), (1, 3), (0, 2)] : List (Nat × Nat)).length ∧
    ((card_new_run [(0, 2), (1, 3), (0, 2)] initPool).getD 0 0 =
        (card_new_run [(0, 2), (1, 3), (0, 2)] initPool).getD 2 0 ↔
      ([(0, 2), (1, 3), (0, 2)] : List (Nat × Nat)).getD 0 (0, 0) =
        ([(0, 2), (1, 3), (0, 2)] : List (Nat × Nat)).getD 2 (0, 0)) :=
  ⟨by decide, by decide, by decide,
    claim9_interning [(0, 2), (1, 3), (0, 2)] 0 2 (by decide) (by decide)⟩

end PokerSim
